import Mathlib

/-!
Shallow embedding of the BugSwarm `common` client library, covering:

* `bugswarm/common/rest_api/database_api.py` — the `DatabaseAPI` class:
  the optimistic-concurrency mutator (`_get`, `_patch`, `_delete`),
  the pagination traverser (`_iter_pages`), chunked bulk insertion
  (`_chunks`, `_bulk_insert`);
* `bugswarm/common/log_downloader.py` — `_get_log_from_url`;
* `bugswarmcommon/travis_wrapper.py` — `TravisWrapper._get`;
* `bugswarmcommon/artifact_processing/runners.py` — `ParallelArtifactRunner.run`.

The network is modelled as an oracle function supplied as a parameter; the
Python `requests` responses are modelled as records carrying exactly the
fields the client inspects (status code, the `_etag` field of the decoded
JSON body, the `_items` list and the `_links.next.href` field).
-/

namespace DatabaseAPI

/-- HTTP method of a request issued by `DatabaseAPI`. -/
inductive Method where
  | get
  | post
  | patch
  | put
  | delete
deriving DecidableEq

/-- A request as issued by the `DatabaseAPI` convenience methods: the method,
the endpoint URL, the optional `If-Match` header, and the optional serialized
JSON payload (`json.dumps(...)` of the updates or entity). -/
structure Request where
  method : Method
  url : String
  ifMatch : Option String
  payload : Option String
deriving DecidableEq

/-- The part of a `requests.Response` that `DatabaseAPI._patch` /
`DatabaseAPI._delete` inspect: the status code and the `_etag` field of the
decoded JSON body.  `etag = none` models the case where `resp.json()` has no
`_etag` field (or no decodable body at all), in which case the Python code
raises from `resp.json()['_etag']`. -/
structure RestResp where
  status : Nat
  etag : Option String
deriving DecidableEq

/-- The network oracle: what the remote server answers to each request. -/
abbrev Net : Type := Request → RestResp

/-- Errors raised by the `DatabaseAPI` convenience methods: `TypeError` /
`ValueError` from the argument checks, and the lookup error (`KeyError` or
`ValueError` from `resp.json()['_etag']`) when the inner GET of a
PATCH/DELETE yields no etag. -/
inductive ApiErr where
  | valueError
  | etagLookupError
deriving DecidableEq

/-- The GET request that `DatabaseAPI._get` issues for an endpoint
(no `If-Match`, no payload). -/
def getRequest (endpoint : String) : Request :=
  ⟨Method.get, endpoint, none, none⟩

/-- The conditional PATCH request built by `DatabaseAPI._patch`: headers carry
`If-Match: etag`, body is `json.dumps(updates)`. -/
def patchRequest (endpoint : String) (etag : String) (updates : String) : Request :=
  ⟨Method.patch, endpoint, some etag, some updates⟩

/-- The conditional DELETE request built by `DatabaseAPI._delete`: headers
carry `If-Match: etag`, no body. -/
def deleteRequest (endpoint : String) (etag : String) : Request :=
  ⟨Method.delete, endpoint, some etag, none⟩

/-- `DatabaseAPI._get(endpoint, error_if_not_found)`: after the argument
checks it issues a single GET and returns the response unconditionally (HTTP
failures are only logged, never raised).  The `error_if_not_found` flag only
controls logging, so it does not appear in the result. -/
def dbGet (net : Net) (endpoint : String) : Except ApiErr RestResp :=
  if endpoint = "" then Except.error ApiErr.valueError
  else Except.ok (net (getRequest endpoint))

/-- `DatabaseAPI._patch(endpoint, updates)`.  Returns the result (the final
response, or the raised error) together with the list of requests issued, in
order.  Mirrors the source: argument checks, then
`etag = self._get(endpoint).json()['_etag']`, then the conditional PATCH with
an `If-Match: etag` header. -/
def dbPatch (net : Net) (endpoint : String) (updates : String) :
    Except ApiErr RestResp × List Request :=
  if endpoint = "" then (Except.error ApiErr.valueError, [])
  else
    let getResp := net (getRequest endpoint)
    match getResp.etag with
    | none => (Except.error ApiErr.etagLookupError, [getRequest endpoint])
    | some etag =>
      let req := patchRequest endpoint etag updates
      (Except.ok (net req), [getRequest endpoint, req])

/-- `DatabaseAPI._delete(endpoint)`.  Returns the result together with the
list of requests issued, in order.  Mirrors the source: argument checks, then
`etag = self._get(endpoint).json()['_etag']`, then the conditional DELETE
with an `If-Match: etag` header. -/
def dbDelete (net : Net) (endpoint : String) :
    Except ApiErr RestResp × List Request :=
  if endpoint = "" then (Except.error ApiErr.valueError, [])
  else
    let getResp := net (getRequest endpoint)
    match getResp.etag with
    | none => (Except.error ApiErr.etagLookupError, [getRequest endpoint])
    | some etag =>
      let req := deleteRequest endpoint etag
      (Except.ok (net req), [getRequest endpoint, req])

end DatabaseAPI

open DatabaseAPI in
/-- C1: for every PATCH or DELETE call on a non-empty endpoint, the client
first issues a GET on that same endpoint; if the GET response carries no etag
field, the operation raises a lookup error and no conditional write is sent
(the request trace is exactly the single GET); otherwise the subsequent
PATCH/DELETE request carries an `If-Match` header whose value is exactly the
etag obtained from that GET. -/
theorem patch_delete_conditional_write (net : Net) (endpoint updates : String)
    (hne : endpoint ≠ "") :
    ((dbPatch net endpoint updates).2.head? = some (getRequest endpoint) ∧
      (dbDelete net endpoint).2.head? = some (getRequest endpoint)) ∧
    ((net (getRequest endpoint)).etag = none →
      dbPatch net endpoint updates = (Except.error ApiErr.etagLookupError, [getRequest endpoint]) ∧
      dbDelete net endpoint = (Except.error ApiErr.etagLookupError, [getRequest endpoint])) ∧
    (∀ t : String, (net (getRequest endpoint)).etag = some t →
      (dbPatch net endpoint updates =
        (Except.ok (net (patchRequest endpoint t updates)),
          [getRequest endpoint, patchRequest endpoint t updates]) ∧
        (patchRequest endpoint t updates).ifMatch = some t) ∧
      (dbDelete net endpoint =
        (Except.ok (net (deleteRequest endpoint t)),
          [getRequest endpoint, deleteRequest endpoint t]) ∧
        (deleteRequest endpoint t).ifMatch = some t)) := by
  refine ⟨⟨?_, ?_⟩, ?_, ?_⟩
  · simp only [dbPatch, if_neg hne]
    cases h : (net (getRequest endpoint)).etag <;> simp [h]
  · simp only [dbDelete, if_neg hne]
    cases h : (net (getRequest endpoint)).etag <;> simp [h]
  · intro h
    constructor
    · simp only [dbPatch, if_neg hne, h]
    · simp only [dbDelete, if_neg hne, h]
  · intro t ht
    refine ⟨⟨?_, rfl⟩, ?_, rfl⟩
    · simp only [dbPatch, if_neg hne, ht]
    · simp only [dbDelete, if_neg hne, ht]

namespace DatabaseAPI

/-- A concrete network for the C1 witness: the GET on endpoint `"e"` answers
with etag `"tag7"`; every conditional write succeeds with status 200. -/
def exNetC1 : Net := fun r =>
  match r.method with
  | Method.get => ⟨200, some "tag7"⟩
  | _ => ⟨200, none⟩

end DatabaseAPI

open DatabaseAPI in
/-- Witness for C1 at the concrete network `exNetC1`, endpoint `"e"`. -/
theorem patch_delete_conditional_write_witness :
    (dbPatch exNetC1 "e" "{}").2.head? = some (getRequest "e") ∧
    dbPatch exNetC1 "e" "{}" =
      (Except.ok (exNetC1 (patchRequest "e" "tag7" "{}")),
        [getRequest "e", patchRequest "e" "tag7" "{}"]) ∧
    (patchRequest "e" "tag7" "{}").ifMatch = some "tag7" ∧
    dbDelete exNetC1 "e" =
      (Except.ok (exNetC1 (deleteRequest "e" "tag7")),
        [getRequest "e", deleteRequest "e" "tag7"]) ∧
    (deleteRequest "e" "tag7").ifMatch = some "tag7" := by
  have h := patch_delete_conditional_write exNetC1 "e" "{}" (by decide)
  have ht : (exNetC1 (getRequest "e")).etag = some "tag7" := by decide
  refine ⟨h.1.1, ?_, ?_, ?_, ?_⟩
  · exact ((h.2.2 "tag7" ht).1).1
  · exact ((h.2.2 "tag7" ht).1).2
  · exact ((h.2.2 "tag7" ht).2).1
  · exact ((h.2.2 "tag7" ht).2).2

namespace DatabaseAPI

/-- The slicing loop of `DatabaseAPI._chunks` for a chunk size of `m + 1`
(the source guarantees the clamped size is at least 1 before the loop runs):
`for i in range(0, len(l), n): yield l[i:i+n]`, rendered as taking the first
`m + 1` elements and recursing on the rest.  Each iteration consumes at least
one element, so `l.length` iterations always suffice; the explicit `fuel`
argument makes the recursion structural. -/
def chunkListAux : Nat → List α → Nat → List (List α)
  | _, [], _ => []
  | 0, _ :: _, _ => []
  | fuel + 1, x :: xs, m =>
    (x :: xs).take (m + 1) :: chunkListAux fuel ((x :: xs).drop (m + 1)) m

/-- The slicing loop of `DatabaseAPI._chunks` with the fuel fixed at the
(always sufficient) list length. -/
def chunkList (l : List α) (m : Nat) : List (List α) :=
  chunkListAux l.length l m

/-- Any two sufficient fuels compute the same chunking. -/
theorem chunkListAux_congr :
    ∀ (f1 f2 : Nat) (l : List α) (m : Nat), l.length ≤ f1 → l.length ≤ f2 →
      chunkListAux f1 l m = chunkListAux f2 l m
  | f1, f2, [], _, _, _ => by cases f1 <;> cases f2 <;> rfl
  | 0, _, x :: xs, _, h1, _ => by simp at h1
  | _ + 1, 0, x :: xs, _, _, h2 => by simp at h2
  | f1 + 1, f2 + 1, x :: xs, m, h1, h2 => by
    have hdrop : ((x :: xs).drop (m + 1)).length ≤ xs.length := by
      simp only [List.length_drop, List.length_cons]
      omega
    have hx1 : xs.length ≤ f1 := by
      simp only [List.length_cons] at h1
      omega
    have hx2 : xs.length ≤ f2 := by
      simp only [List.length_cons] at h2
      omega
    show (x :: xs).take (m + 1) :: chunkListAux f1 ((x :: xs).drop (m + 1)) m
        = (x :: xs).take (m + 1) :: chunkListAux f2 ((x :: xs).drop (m + 1)) m
    rw [chunkListAux_congr f1 f2 ((x :: xs).drop (m + 1)) m
      (le_trans hdrop hx1) (le_trans hdrop hx2)]
termination_by f1 => f1

/-- Unfolding equation of the slicing loop on a non-empty list. -/
theorem chunkList_cons (x : α) (xs : List α) (m : Nat) :
    chunkList (x :: xs) m =
      (x :: xs).take (m + 1) :: chunkList ((x :: xs).drop (m + 1)) m := by
  have hdrop : ((x :: xs).drop (m + 1)).length ≤ xs.length := by
    simp only [List.length_drop, List.length_cons]
    omega
  show (x :: xs).take (m + 1) :: chunkListAux xs.length ((x :: xs).drop (m + 1)) m
      = (x :: xs).take (m + 1) :: chunkList ((x :: xs).drop (m + 1)) m
  rw [chunkListAux_congr xs.length ((x :: xs).drop (m + 1)).length
    ((x :: xs).drop (m + 1)) m hdrop (le_refl _)]
  rfl

/-- `DatabaseAPI._chunks(l, n)`: raises `ValueError` when `n == 0`; yields
nothing for an empty list; for a negative `n`, `range(0, len(l), n)` yields no
indices, so no chunks are produced; otherwise `n` is clamped to `len(l)` and
the list is sliced into successive chunks of the clamped size. -/
def chunks (l : List α) (n : Int) : Except String (List (List α)) :=
  if n = 0 then Except.error "Chunk size must be greater than zero."
  else if l.isEmpty then Except.ok []
  else if n < 0 then Except.ok []
  else
    -- clamped size = min n.toNat l.length ≥ 1 here, written as (… - 1) + 1
    Except.ok (chunkList l (min n.toNat l.length - 1))

/-- An entity as passed to `_bulk_insert`.  `none` models a Python-falsy
element (such as `None`); `some e` a truthy entity.  The precondition check in
the source is `all(e for e in entities)`, which rejects any falsy element. -/
abbrev PyEntity (α : Type) : Type := Option α

/-- The part of a POST response that `_bulk_insert` inspects (status code;
`422` triggers logging only). -/
abbrev PostNet (α : Type) : Type := List (PyEntity α) → Nat

/-- `DatabaseAPI._bulk_insert(endpoint, entities, plural_entity_name)`:
argument checks (`all(e for e in entities)` must hold, endpoint and name must
be non-empty strings), then each 100-chunk is POSTed and its response is
yielded unconditionally — a 422 is only logged and never stops the loop.
Returns the posted chunks paired with their response status codes, in order.
`chunks entities 100` never hits the `n == 0` error, so the error branch of
`chunks` is mapped to the (unreachable) same `ValueError`. -/
def bulkInsert (net : PostNet α) (endpoint : String)
    (entities : List (PyEntity α)) (pluralName : String) :
    Except ApiErr (List (List (PyEntity α) × Nat)) :=
  if ¬ entities.all Option.isSome then Except.error ApiErr.valueError
  else if endpoint = "" then Except.error ApiErr.valueError
  else if pluralName = "" then Except.error ApiErr.valueError
  else
    match chunks entities 100 with
    | Except.error _ => Except.error ApiErr.valueError
    | Except.ok cs => Except.ok (cs.map (fun c => (c, net c)))

end DatabaseAPI

namespace DatabaseAPI

/-- Concatenating the chunks produced by the slicing loop restores the
original list. -/
theorem chunkList_join (m : Nat) : ∀ l : List α, (chunkList l m).flatten = l
  | [] => by simp [chunkList, chunkListAux]
  | x :: xs => by
    rw [chunkList_cons]
    have ih := chunkList_join m ((x :: xs).drop (m + 1))
    simp only [List.flatten_cons, ih, List.take_append_drop]
termination_by l => l.length
decreasing_by
  simp only [List.drop_succ_cons, List.length_drop, List.length_cons]
  omega

/-- Every chunk produced by the slicing loop is non-empty. -/
theorem chunkList_ne_nil (m : Nat) :
    ∀ l : List α, ∀ c ∈ chunkList l m, c ≠ []
  | [] => by simp [chunkList, chunkListAux]
  | x :: xs => by
    rw [chunkList_cons]
    intro c hc
    rcases List.mem_cons.mp hc with h | h
    · subst h
      simp [List.take_succ_cons]
    · exact chunkList_ne_nil m ((x :: xs).drop (m + 1)) c h
termination_by l => l.length
decreasing_by
  simp only [List.drop_succ_cons, List.length_drop, List.length_cons]
  omega

/-- Every chunk produced by the slicing loop has at most `m + 1` elements. -/
theorem chunkList_le (m : Nat) :
    ∀ l : List α, ∀ c ∈ chunkList l m, c.length ≤ m + 1
  | [] => by simp [chunkList, chunkListAux]
  | x :: xs => by
    rw [chunkList_cons]
    intro c hc
    rcases List.mem_cons.mp hc with h | h
    · subst h
      simp only [List.length_take]
      omega
    · exact chunkList_le m ((x :: xs).drop (m + 1)) c h
termination_by l => l.length
decreasing_by
  simp only [List.drop_succ_cons, List.length_drop, List.length_cons]
  omega

/-- The slicing loop produces exactly `⌈length / (m + 1)⌉` chunks. -/
theorem chunkList_length (m : Nat) :
    ∀ l : List α, (chunkList l m).length = (l.length + m) / (m + 1)
  | [] => by
    simp only [chunkList, chunkListAux, List.length_nil, Nat.zero_add]
    exact (Nat.div_eq_of_lt (by omega)).symm
  | x :: xs => by
    rw [chunkList_cons]
    have ih := chunkList_length m ((x :: xs).drop (m + 1))
    have hd : ((x :: xs).drop (m + 1)).length = xs.length - m := by
      simp [List.length_drop]
    rw [List.length_cons, ih, hd, List.length_cons]
    rcases le_or_lt (xs.length + 1) (m + 1) with h | h
    · have h1 : (xs.length - m + m) / (m + 1) = 0 := Nat.div_eq_of_lt (by omega)
      have h2 : (xs.length + 1 + m) / (m + 1) = 1 :=
        Nat.div_eq_of_lt_le (by omega) (by omega)
      omega
    · have h1 : xs.length - m + m + (m + 1) = xs.length + 1 + m := by
        omega
      have h2 : (xs.length - m + m + (m + 1)) / (m + 1) =
          (xs.length - m + m) / (m + 1) + 1 :=
        Nat.add_div_right _ (by omega)
      rw [h1] at h2
      omega
termination_by l => l.length
decreasing_by
  simp only [List.drop_succ_cons, List.length_drop, List.length_cons]
  omega

end DatabaseAPI


namespace DatabaseAPI

/-- On a non-empty list and a positive chunk size, `_chunks` succeeds and
produces the slicing loop's chunks for the clamped size
`min n (length l)`. -/
theorem chunks_spec (l : List α) (n : Int) (hl : l ≠ []) (hn : 0 < n) :
    chunks l n = Except.ok (chunkList l (min n.toNat l.length - 1)) := by
  have h0 : ¬ n = 0 := by omega
  have hneg : ¬ n < 0 := by omega
  have hE : l.isEmpty = false := by
    cases l with
    | nil => exact absurd rfl hl
    | cons a as => rfl
  simp [chunks, h0, hE, hneg]

/-- For any positive chunk size, `_chunks` never raises. -/
theorem chunks_ok_of_pos (l : List α) (n : Int) (hn : 0 < n) :
    ∃ cs, chunks l n = Except.ok cs := by
  rcases eq_or_ne l [] with rfl | hl
  · refine ⟨[], ?_⟩
    have h0 : ¬ n = 0 := by omega
    simp [chunks, h0]
  · exact ⟨_, chunks_spec l n hl hn⟩

end DatabaseAPI

open DatabaseAPI in
/-- C10: for every list `l` and chunk size `n > 0`, `_chunks(l, n)` succeeds;
the concatenation of the yielded chunks, in yield order, is exactly `l`
(no element lost, duplicated, or reordered); every yielded chunk is
non-empty; and for an empty list no chunks are yielded. -/
theorem chunks_concat_exact (α : Type) (l : List α) (n : Int) (hn : 0 < n) :
    ∃ cs, chunks l n = Except.ok cs ∧
      cs.flatten = l ∧ (∀ c ∈ cs, c ≠ []) ∧ (l = [] → cs = []) := by
  rcases eq_or_ne l [] with rfl | hl
  · have h0 : ¬ n = 0 := by omega
    exact ⟨[], by simp [chunks, h0], rfl, by simp, fun _ => rfl⟩
  · rw [chunks_spec l n hl hn]
    exact ⟨_, rfl, chunkList_join _ l, chunkList_ne_nil _ l, fun h => absurd h hl⟩

open DatabaseAPI in
/-- Witness for C10 at the concrete list `[1, 2, 3, 4, 5]` and chunk
size 2. -/
theorem chunks_concat_exact_witness :
    ∃ cs, chunks [1, 2, 3, 4, 5] (2 : Int) = Except.ok cs ∧
      cs.flatten = [1, 2, 3, 4, 5] ∧ (∀ c ∈ cs, c ≠ []) ∧
      (([1, 2, 3, 4, 5] : List Nat) = [] → cs = []) :=
  chunks_concat_exact Nat [1, 2, 3, 4, 5] 2 (by decide)

namespace DatabaseAPI

/-- A POST oracle that rejects every chunk with a 422 validation failure,
for the C6 witness. -/
def net422 : PostNet Nat := fun _ => 422

/-- Concrete entities for the C6 witness. -/
def exEntities : List (PyEntity Nat) := [some 1, some 2]

end DatabaseAPI

set_option maxRecDepth 4000 in
open DatabaseAPI in
/-- C6: splitting `N > 0` entities with chunk size `C > 0` (clamped to `N`
when `N < C`) yields `⌈N / C⌉` chunks, each of size at most `C`; bulk
insertion posts every 100-chunk independently and unconditionally — the
response statuses (in particular a 422 validation failure on some chunk) have
no influence on the remaining chunks being posted; and 250 entities with the
default chunk size 100 yield 3 chunks of sizes 100, 100 and 50. -/
theorem bulk_insert_chunking {α β : Type} :
    (∀ (l : List α) (n : Int), l ≠ [] → 0 < n →
      ∃ cs, chunks l n = Except.ok cs ∧
        cs.length = (l.length + n.toNat - 1) / n.toNat ∧
        ∀ c ∈ cs, c.length ≤ n.toNat) ∧
    (∀ (net : PostNet β) (endpoint pluralName : String)
        (entities : List (PyEntity β)),
      entities.all Option.isSome = true → endpoint ≠ "" → pluralName ≠ "" →
      ∃ cs, chunks entities 100 = Except.ok cs ∧
        bulkInsert net endpoint entities pluralName =
          Except.ok (cs.map (fun c => (c, net c)))) ∧
    chunks (List.replicate 250 (0 : Nat)) 100 =
      Except.ok [List.replicate 100 0, List.replicate 100 0,
        List.replicate 50 0] := by
  refine ⟨?_, ?_, by rfl⟩
  · intro l n hl hn
    rw [chunks_spec l n hl hn]
    have hL : 0 < l.length := List.length_pos.mpr hl
    have hC : 0 < n.toNat := by omega
    have hM : 0 < min n.toNat l.length := by omega
    have hM1 : min n.toNat l.length - 1 + 1 = min n.toNat l.length := by omega
    refine ⟨_, rfl, ?_, ?_⟩
    · rw [chunkList_length (min n.toNat l.length - 1) l, hM1]
      rcases le_or_lt n.toNat l.length with h | h
      · have hmin : min n.toNat l.length = n.toNat := min_eq_left h
        rw [hmin]
        congr 1
        omega
      · have hmin : min n.toNat l.length = l.length := min_eq_right (le_of_lt h)
        rw [hmin]
        have h1 : (l.length + (l.length - 1)) / l.length = 1 :=
          Nat.div_eq_of_lt_le (by omega) (by omega)
        have h2 : (l.length + n.toNat - 1) / n.toNat = 1 :=
          Nat.div_eq_of_lt_le (by omega) (by omega)
        omega
    · intro c hc
      have := chunkList_le (min n.toNat l.length - 1) l c hc
      omega
  · intro net endpoint pluralName entities ha he hp
    obtain ⟨cs, hcs⟩ := chunks_ok_of_pos entities 100 (by omega)
    refine ⟨cs, hcs, ?_⟩
    simp [bulkInsert, ha, he, hp, hcs]

open DatabaseAPI in
/-- Witness for C6: chunk counts and sizes at `[1, 2, 3]` with size 2, and a
bulk insertion of two entities against a POST oracle that answers 422 to
every chunk, which still posts every chunk. -/
theorem bulk_insert_chunking_witness :
    (∃ cs, chunks [1, 2, 3] (2 : Int) = Except.ok cs ∧
      cs.length = (([1, 2, 3] : List Nat).length + (2 : Int).toNat - 1) / (2 : Int).toNat ∧
      ∀ c ∈ cs, c.length ≤ (2 : Int).toNat) ∧
    (∃ cs, chunks exEntities 100 = Except.ok cs ∧
      bulkInsert net422 "e" exEntities "things" =
        Except.ok (cs.map (fun c => (c, net422 c)))) := by
  obtain ⟨ha, hb, hc⟩ := @bulk_insert_chunking Nat Nat
  exact ⟨ha [1, 2, 3] 2 (by decide) (by decide),
    hb net422 "e" "things" exEntities (by decide) (by decide) (by decide)⟩

namespace DatabaseAPI

/-- A POST oracle that accepts every chunk with status 201, for the C9
theorems. -/
def exPostNet : PostNet Nat := fun _ => 201

end DatabaseAPI

open DatabaseAPI in
/-- C9 counterexample: calling bulk insertion with an empty entities list
does not raise an argument error — `all(e for e in [])` is vacuously true, so
the checks pass and the chunking loop yields nothing: the call returns
normally with no chunk posted. -/
theorem bulk_insert_empty_accepted :
    bulkInsert exPostNet "e" ([] : List (PyEntity Nat)) "things" =
      Except.ok [] := rfl

open DatabaseAPI in
/-- C9 (amended): a call to bulk insertion whose entities contain a null
(falsy) entity fails fast with `ValueError` before any chunk is posted (the
error result carries no posted chunk); an empty entities list, however, is
accepted — the precondition check passes vacuously and the call returns
normally having posted no chunk. -/
theorem bulk_insert_precondition (net : PostNet α) (endpoint pluralName : String)
    (entities : List (PyEntity α)) (he : endpoint ≠ "") (hp : pluralName ≠ "") :
    ((none : PyEntity α) ∈ entities →
      bulkInsert net endpoint entities pluralName = Except.error ApiErr.valueError) ∧
    bulkInsert net endpoint ([] : List (PyEntity α)) pluralName = Except.ok [] := by
  constructor
  · intro hmem
    have ha : ¬ entities.all Option.isSome = true := by
      intro hall
      have := List.all_eq_true.mp hall _ hmem
      simp at this
    simp [bulkInsert, ha]
  · simp [bulkInsert, chunks, he, hp]

open DatabaseAPI in
/-- Witness for C9 (amended) at the concrete entities `[some 1, none]` and
the empty list. -/
theorem bulk_insert_precondition_witness :
    bulkInsert exPostNet "e" [some 1, none] "things" =
      Except.error ApiErr.valueError ∧
    bulkInsert exPostNet "e" ([] : List (PyEntity Nat)) "things" =
      Except.ok [] := by
  have h := bulk_insert_precondition exPostNet "e" "things" [some 1, none]
    (by decide) (by decide)
  exact ⟨h.1 (by decide), h.2⟩

namespace DatabaseAPI

/-- One page response as inspected by `DatabaseAPI._iter_pages`: the HTTP
status code (`raise_for_status` raises for 4xx/5xx), the `_items` field of
the decoded JSON body (`none` when the field is missing, triggering the first
`KeyError` break), and the `_links.next.href` field (`none` when missing,
triggering the second `KeyError` break). -/
structure PageResp (α : Type) where
  status : Nat
  items : Option (List α)
  nextHref : Option String
deriving DecidableEq

/-- Outcome of a pagination traversal: the `ValueError` raised on an empty
start link, the `requests.HTTPError` raised by `raise_for_status` on a
4xx/5xx page, or the accumulated results.  `fuelOut` marks an iteration count
exceeding the model's fuel (the source has no iteration cap; every theorem
below supplies enough fuel for it never to be reached). -/
inductive IterOutcome (α : Type) where
  | valueError
  | fuelOut
  | httpError (status : Nat)
  | ok (results : List α)
deriving DecidableEq

/-- The `while next_link:` loop of `DatabaseAPI._iter_pages`, one fuel unit
per iteration.  `server` maps a link to the page the GET returns; `uj` is
`urllib.parse.urljoin`, left uninterpreted.  Mirrors the source: check the
loop condition, GET, `raise_for_status`, break when `_items` is missing,
break (before appending) when `_items` is empty, append, break when
`_links.next.href` is missing, else continue on the resolved link. -/
def iterPagesAux (server : String → PageResp α) (uj : String → String → String) :
    Nat → String → List α → IterOutcome α
  | 0, _, _ => IterOutcome.fuelOut
  | fuel + 1, link, results =>
    if link = "" then IterOutcome.ok results
    else
      let resp := server link
      if 400 ≤ resp.status ∧ resp.status < 600 then IterOutcome.httpError resp.status
      else
        match resp.items with
        | none => IterOutcome.ok results
        | some its =>
          if its.isEmpty then IterOutcome.ok results
          else
            match resp.nextHref with
            | none => IterOutcome.ok (results ++ its)
            | some href => iterPagesAux server uj fuel (uj link href) (results ++ its)

/-- `DatabaseAPI._iter_pages(start_link)`: the argument checks, then the
traversal loop starting from an empty accumulator. -/
def iterPages (server : String → PageResp α) (uj : String → String → String)
    (fuel : Nat) (startLink : String) : IterOutcome α :=
  if startLink = "" then IterOutcome.valueError
  else iterPagesAux server uj fuel startLink []

/-- The items of a page (`[]` when the `_items` field is missing). -/
def pageItems (p : PageResp α) : List α :=
  p.items.getD []

/-- A chain of pages `P1 → P2 → ... → Pn` reachable from a link: every page
except the last carries a next link, and each next link resolves (via `uj`)
to the link serving the following page.  Every link in the chain is
non-empty (an empty resolved link would end the `while` loop). -/
inductive PageChain (server : String → PageResp α) (uj : String → String → String) :
    String → List (PageResp α) → Prop
  | last (link : String) (h : link ≠ "") (hnext : (server link).nextHref = none) :
      PageChain server uj link [server link]
  | step (link href : String) (rest : List (PageResp α)) (h : link ≠ "")
      (hnext : (server link).nextHref = some href)
      (hrest : PageChain server uj (uj link href) rest) :
      PageChain server uj link (server link :: rest)

/-- Traversing a chain of `n` well-formed pages (status not 4xx/5xx, `_items`
present, non-empty `_items` on every page that carries a next link)
accumulates the concatenation of all the pages' items, for any starting
accumulator and any fuel of at least `n`. -/
theorem iterPagesAux_chain (server : String → PageResp α)
    (uj : String → String → String) (link : String) (ps : List (PageResp α))
    (hchain : PageChain server uj link ps)
    (hst : ∀ p ∈ ps, p.status < 400 ∨ 600 ≤ p.status)
    (hit : ∀ p ∈ ps, p.items.isSome)
    (hne : ∀ p ∈ ps, p.nextHref.isSome → p.items ≠ some []) :
    ∀ (fuel : Nat) (acc : List α), ps.length ≤ fuel →
      iterPagesAux server uj fuel link acc =
        IterOutcome.ok (acc ++ (ps.map pageItems).flatten) := by
  induction hchain with
  | last l hl hnext =>
    intro fuel acc hfuel
    match fuel, hfuel with
    | f + 1, _ =>
      have hm : server l ∈ [server l] := List.mem_singleton.mpr rfl
      have hs : ¬ (400 ≤ (server l).status ∧ (server l).status < 600) := by
        rcases hst _ hm with h | h <;> omega
      obtain ⟨its, hits⟩ := Option.isSome_iff_exists.mp (hit _ hm)
      rw [iterPagesAux, if_neg hl, if_neg hs]
      simp only [hits]
      rcases eq_or_ne its [] with rfl | hne2
      · simp [pageItems, hits]
      · rw [if_neg (by simpa [List.isEmpty_iff] using hne2), hnext]
        simp [pageItems, hits]
  | step l href rest hl hnext hrest ih =>
    intro fuel acc hfuel
    match fuel, hfuel with
    | f + 1, hfuel =>
      have hm : server l ∈ server l :: rest := List.mem_cons_self _ _
      have hs : ¬ (400 ≤ (server l).status ∧ (server l).status < 600) := by
        rcases hst _ hm with h | h <;> omega
      obtain ⟨its, hits⟩ := Option.isSome_iff_exists.mp (hit _ hm)
      have hnonempty : its ≠ [] := by
        intro h0
        exact hne _ hm (by simp [hnext]) (h0 ▸ hits)
      rw [iterPagesAux, if_neg hl, if_neg hs]
      simp only [hits]
      rw [if_neg (by simpa [List.isEmpty_iff] using hnonempty), hnext]
      have htail : rest.length ≤ f := by
        simp only [List.length_cons] at hfuel
        omega
      show iterPagesAux server uj f (uj l href) (acc ++ its) =
        IterOutcome.ok (acc ++ (List.map pageItems (server l :: rest)).flatten)
      rw [ih (fun p hp => hst p (List.mem_cons_of_mem _ hp))
        (fun p hp => hit p (List.mem_cons_of_mem _ hp))
        (fun p hp => hne p (List.mem_cons_of_mem _ hp)) f (acc ++ its) htail]
      simp [pageItems, hits, List.append_assoc]

end DatabaseAPI

open DatabaseAPI in
/-- C3: pagination traversal over a chain of pages `P1 → ... → Pn` (each
page except `Pn` carrying a valid next link, every page with `_items` present
and not 4xx/5xx, the linked pages non-empty) returns the concatenation
`items(P1) + ... + items(Pn)` in that order; a single page with no next link
returns exactly that page's items; a first page whose `_items` field is
empty returns the empty list. -/
theorem iter_pages_concatenation {α : Type} (server : String → PageResp α)
    (uj : String → String → String) :
    (∀ (startLink : String) (ps : List (PageResp α)),
      PageChain server uj startLink ps →
      (∀ p ∈ ps, p.status < 400 ∨ 600 ≤ p.status) →
      (∀ p ∈ ps, p.items.isSome) →
      (∀ p ∈ ps, p.nextHref.isSome → p.items ≠ some []) →
      ∀ fuel, ps.length ≤ fuel →
        iterPages server uj fuel startLink =
          IterOutcome.ok (ps.map pageItems).flatten) ∧
    (∀ (startLink : String) (its : List α), startLink ≠ "" →
      ((server startLink).status < 400 ∨ 600 ≤ (server startLink).status) →
      (server startLink).items = some its →
      (server startLink).nextHref = none →
      ∀ fuel, 1 ≤ fuel →
        iterPages server uj fuel startLink = IterOutcome.ok its) ∧
    (∀ startLink : String, startLink ≠ "" →
      ((server startLink).status < 400 ∨ 600 ≤ (server startLink).status) →
      (server startLink).items = some [] →
      ∀ fuel, 1 ≤ fuel →
        iterPages server uj fuel startLink = IterOutcome.ok []) := by
  refine ⟨?_, ?_, ?_⟩
  · intro startLink ps hchain hst hit hne fuel hfuel
    have hstart : startLink ≠ "" := by
      cases hchain with
      | last _ h _ => exact h
      | step _ _ _ h _ _ => exact h
    rw [iterPages, if_neg hstart,
      iterPagesAux_chain server uj startLink ps hchain hst hit hne fuel [] hfuel]
    rfl
  · intro startLink its hstart hok hits hnext fuel hfuel
    match fuel, hfuel with
    | f + 1, _ =>
      have hs : ¬ (400 ≤ (server startLink).status ∧ (server startLink).status < 600) := by
        rcases hok with h | h <;> omega
      rw [iterPages, if_neg hstart, iterPagesAux, if_neg hstart, if_neg hs]
      simp only [hits]
      rcases eq_or_ne its [] with rfl | hne2
      · simp
      · rw [if_neg (by simpa [List.isEmpty_iff] using hne2), hnext]
        simp
  · intro startLink hstart hok hits fuel hfuel
    match fuel, hfuel with
    | f + 1, _ =>
      have hs : ¬ (400 ≤ (server startLink).status ∧ (server startLink).status < 600) := by
        rcases hok with h | h <;> omega
      rw [iterPages, if_neg hstart, iterPagesAux, if_neg hstart, if_neg hs]
      simp [hits]

namespace DatabaseAPI

/-- A concrete three-page server for the pagination witnesses: `"p1"` has two
items and links to `"p2"`; `"p2"` has one item and no next link; `"p3"` has
an empty `_items` list. -/
def exServer : String → PageResp String := fun link =>
  if link = "p1" then ⟨200, some ["a", "b"], some "p2"⟩
  else if link = "p2" then ⟨200, some ["c"], none⟩
  else if link = "p3" then ⟨200, some [], some "p1"⟩
  else ⟨404, none, none⟩

/-- A concrete `urljoin` for the pagination witnesses: the next href is
already absolute. -/
def exUj : String → String → String := fun _ href => href

end DatabaseAPI

open DatabaseAPI in
/-- Witness for C3 on the concrete server `exServer`: a two-page chain
concatenates to three items, the single page `"p2"` returns its own items,
and the empty first page `"p3"` returns the empty list. -/
theorem iter_pages_concatenation_witness :
    iterPages exServer exUj 2 "p1" = IterOutcome.ok ["a", "b", "c"] ∧
    iterPages exServer exUj 1 "p2" = IterOutcome.ok ["c"] ∧
    iterPages exServer exUj 1 "p3" = IterOutcome.ok ([] : List String) := by
  obtain ⟨h1, h2, h3⟩ := iter_pages_concatenation exServer exUj
  have hchain : PageChain exServer exUj "p1" [exServer "p1", exServer "p2"] :=
    PageChain.step "p1" "p2" [exServer "p2"] (by decide) (by rfl)
      (PageChain.last "p2" (by decide) (by rfl))
  refine ⟨?_, ?_, ?_⟩
  · exact (h1 "p1" [exServer "p1", exServer "p2"] hchain (by decide) (by decide)
      (by decide) 2 (by decide)).trans (by rfl)
  · exact h2 "p2" ["c"] (by decide) (by decide) (by rfl) (by rfl) 1 (by decide)
  · exact h3 "p3" (by decide) (by decide) (by rfl) 1 (by decide)

open DatabaseAPI in
/-- C8: at any point of the traversal (any current link, any accumulated
items so far), after a GET whose status does not raise: when the page has no
`_items` field the loop stops and returns the accumulated items; when
`_items` is present but empty it stops with the accumulated items; and when
no next link is present it stops with the accumulated items extended by this
page's items — in all three cases returning normally without raising. -/
theorem iter_pages_termination {α : Type} (server : String → PageResp α)
    (uj : String → String → String) (link : String) (acc : List α) (fuel : Nat)
    (hlink : link ≠ "")
    (hok : (server link).status < 400 ∨ 600 ≤ (server link).status) :
    ((server link).items = none →
      iterPagesAux server uj (fuel + 1) link acc = IterOutcome.ok acc) ∧
    ((server link).items = some [] →
      iterPagesAux server uj (fuel + 1) link acc = IterOutcome.ok acc) ∧
    (∀ its, (server link).items = some its → (server link).nextHref = none →
      iterPagesAux server uj (fuel + 1) link acc = IterOutcome.ok (acc ++ its)) := by
  have hs : ¬ (400 ≤ (server link).status ∧ (server link).status < 600) := by
    rcases hok with h | h <;> omega
  refine ⟨?_, ?_, ?_⟩
  · intro h
    rw [iterPagesAux, if_neg hlink, if_neg hs]
    simp [h]
  · intro h
    rw [iterPagesAux, if_neg hlink, if_neg hs]
    simp [h]
  · intro its h hnext
    rw [iterPagesAux, if_neg hlink, if_neg hs]
    simp only [h]
    rcases eq_or_ne its [] with rfl | hne2
    · simp
    · rw [if_neg (by simpa [List.isEmpty_iff] using hne2), hnext]

namespace DatabaseAPI

/-- A concrete server for the C8 witness: `"noitems"` has no `_items` field,
`"empty"` has an empty `_items` list, and any other link serves one item with
no next link. -/
def exServerT : String → PageResp Nat := fun link =>
  if link = "noitems" then ⟨200, none, some "x"⟩
  else if link = "empty" then ⟨200, some [], some "x"⟩
  else ⟨200, some [7], none⟩

end DatabaseAPI

open DatabaseAPI in
/-- Witness for C8 on the concrete server `exServerT`, with one item already
accumulated. -/
theorem iter_pages_termination_witness :
    iterPagesAux exServerT exUj 1 "noitems" [1] = IterOutcome.ok [1] ∧
    iterPagesAux exServerT exUj 1 "empty" [1] = IterOutcome.ok [1] ∧
    iterPagesAux exServerT exUj 1 "last" [1] = IterOutcome.ok [1, 7] := by
  refine ⟨?_, ?_, ?_⟩
  · exact (iter_pages_termination exServerT exUj "noitems" [1] 0
      (by decide) (by decide)).1 (by rfl)
  · exact (iter_pages_termination exServerT exUj "empty" [1] 0
      (by decide) (by decide)).2.1 (by rfl)
  · exact (iter_pages_termination exServerT exUj "last" [1] 0
      (by decide) (by decide)).2.2 [7] (by rfl) (by rfl)

namespace LogDownloader

/-- Outcome of one `urllib.request.urlopen(log_url)` attempt in
`_get_log_from_url`: the read content, a `URLError`, or a
`ConnectionResetError`. -/
inductive FetchOutcome where
  | success (content : String)
  | urlError
  | connReset
deriving DecidableEq

/-- `_get_log_from_url(log_url, max_retries, retry_count)`, with `net`
giving the outcome of the attempt numbered `retry_count` and the recursion
carried by `remaining = max_retries - retry_count` (the call sites start at
`retry_count = 0`).  On success the content is returned; on `URLError` the
failure is logged and `None` returned; on `ConnectionResetError` with
retries left, the source sleeps and recurses with `retry_count + 1` — but it
does not return the recursive call's value, so the function falls off the
end and returns `None` regardless of what the retry produced. -/
def getLogAux (net : Nat → FetchOutcome) : Nat → Nat → Option String
  | attempt, 0 =>
    match net attempt with
    | FetchOutcome.success c => some c
    | FetchOutcome.urlError => none
    | FetchOutcome.connReset => none
  | attempt, remaining + 1 =>
    match net attempt with
    | FetchOutcome.success c => some c
    | FetchOutcome.urlError => none
    | FetchOutcome.connReset =>
      let _ := getLogAux net (attempt + 1) remaining
      none

/-- `_get_log_from_url(log_url, max_retries)` with the default
`retry_count = 0`. -/
def getLogFromUrl (net : Nat → FetchOutcome) (maxRetries : Nat) : Option String :=
  getLogAux net 0 maxRetries

/-- The attempt trace of the C4 scenario: a connection reset on the first
two attempts, then a successful download. -/
def exLogNet : Nat → FetchOutcome := fun attempt =>
  if attempt ≤ 1 then FetchOutcome.connReset else FetchOutcome.success "log"

/-- An attempt trace that succeeds immediately. -/
def exLogNetOk : Nat → FetchOutcome := fun _ => FetchOutcome.success "log"

end LogDownloader

open LogDownloader in
/-- C4 (code evaluated at the failing input): with the default retry budget
of 3, a fetch whose first two attempts raise `ConnectionResetError` and whose
third attempt succeeds returns `None`, not the downloaded content — the
`ConnectionResetError` branch of `_get_log_from_url` recurses without
returning the recursive call's value.  A fetch that succeeds on the first
attempt does return the content, isolating the defect to the retry path. -/
theorem get_log_retry_discards_result :
    getLogFromUrl exLogNet 3 = none ∧
    exLogNet 0 = FetchOutcome.connReset ∧
    exLogNet 1 = FetchOutcome.connReset ∧
    exLogNet 2 = FetchOutcome.success "log" ∧
    getLogFromUrl exLogNetOk 3 = some "log" := by
  refine ⟨rfl, rfl, rfl, rfl, rfl⟩

namespace TravisWrapper

/-- One response of the Travis metadata API as inspected by
`TravisWrapper._get`: the status code and the decoded JSON body. -/
structure TravisResp (β : Type) where
  status : Nat
  body : β
deriving DecidableEq

/-- Result of `TravisWrapper._get`, together with the number of
rate-limit sleeps (`time.sleep(_SLEEP_SECONDS)`) performed before it:
the decoded body on 200, the `HTTPError` from `raise_for_status()` on 404,
the `requests.exceptions.ConnectionError` carrying the status code on any
other non-200/404/429 status, or `outOfTrace` when the supplied response
trace ends while the `while True:` loop would still be polling. -/
inductive TravisResult (β : Type) where
  | ok (sleeps : Nat) (body : β)
  | httpError (sleeps : Nat)
  | connError (sleeps : Nat) (code : Nat)
  | outOfTrace
deriving DecidableEq

/-- The `while True:` loop of `TravisWrapper._get`, consuming one response
from the trace per iteration: 200 returns the decoded body, 404 logs and
raises via `raise_for_status`, 429 sleeps the fixed `_SLEEP_SECONDS` and
retries (with no retry cap), anything else raises a connection error
carrying the status code. -/
def travisGet {β : Type} : List (TravisResp β) → TravisResult β
  | [] => TravisResult.outOfTrace
  | r :: rest =>
    if r.status = 200 then TravisResult.ok 0 r.body
    else if r.status = 404 then TravisResult.httpError 0
    else if r.status = 429 then
      match travisGet rest with
      | TravisResult.ok s b => TravisResult.ok (s + 1) b
      | TravisResult.httpError s => TravisResult.httpError (s + 1)
      | TravisResult.connError s c => TravisResult.connError (s + 1) c
      | TravisResult.outOfTrace => TravisResult.outOfTrace
    else TravisResult.connError 0 r.status

/-- Rate limiting retries without bound: any number of 429 responses
followed by a 200 yields the decoded body, after exactly one sleep per 429
response. -/
theorem travisGet_replicate {β : Type} (b429 b : β) :
    ∀ n : Nat, travisGet (List.replicate n ⟨429, b429⟩ ++ [⟨200, b⟩]) =
      TravisResult.ok n b
  | 0 => by simp [travisGet]
  | n + 1 => by
    rw [List.replicate_succ, List.cons_append, travisGet]
    simp only [travisGet_replicate b429 b n]
    rfl

open TravisWrapper in
/-- C7: a metadata poll returning 200 yields the decoded body with no sleep;
404 is raised (as the `HTTPError` from `raise_for_status`), not retried; 429
sleeps the fixed delay once and retries, whatever the rest of the trace
holds, with no retry cap (any number of 429s before a 200 still yields the
body, one sleep each); any other non-success status raises a connection-type
error carrying the status code; and a 429 followed by a 200 yields the
decoded body after exactly one sleep. -/
theorem travis_get_poll {β : Type} (r : TravisResp β) (rest : List (TravisResp β))
    (b429 b : β) :
    (r.status = 200 → travisGet (r :: rest) = TravisResult.ok 0 r.body) ∧
    (r.status = 404 → travisGet (r :: rest) = TravisResult.httpError 0) ∧
    (r.status = 429 →
      (∀ (s : Nat) (body : β), travisGet rest = TravisResult.ok s body →
        travisGet (r :: rest) = TravisResult.ok (s + 1) body) ∧
      (∀ n : Nat, travisGet (List.replicate n (⟨429, b429⟩ : TravisResp β) ++ [⟨200, b⟩]) =
        TravisResult.ok n b)) ∧
    (r.status ≠ 200 → r.status ≠ 404 → r.status ≠ 429 →
      travisGet (r :: rest) = TravisResult.connError 0 r.status) ∧
    travisGet [(⟨429, b429⟩ : TravisResp β), ⟨200, b⟩] = TravisResult.ok 1 b := by
  refine ⟨?_, ?_, ?_, ?_, ?_⟩
  · intro h200
    rw [travisGet, if_pos h200]
  · intro h404
    rw [travisGet, if_neg (by omega), if_pos h404]
  · intro h429
    refine ⟨?_, travisGet_replicate b429 b⟩
    intro s body hrest
    rw [travisGet, if_neg (by omega), if_neg (by omega), if_pos h429, hrest]
  · intro h1 h2 h3
    rw [travisGet, if_neg h1, if_neg h2, if_neg h3]
  · exact travisGet_replicate b429 b 1

open TravisWrapper in
/-- Witness for C7 over concrete traces with `Nat` bodies. -/
theorem travis_get_poll_witness :
    travisGet [(⟨200, 7⟩ : TravisResp Nat)] = TravisResult.ok 0 7 ∧
    travisGet [(⟨404, 0⟩ : TravisResp Nat), ⟨200, 7⟩] = TravisResult.httpError 0 ∧
    travisGet [(⟨429, 0⟩ : TravisResp Nat), ⟨200, 7⟩] = TravisResult.ok 1 7 ∧
    travisGet [(⟨500, 0⟩ : TravisResp Nat), ⟨200, 7⟩] = TravisResult.connError 0 500 ∧
    travisGet (List.replicate 5 (⟨429, 0⟩ : TravisResp Nat) ++ [⟨200, 7⟩]) =
      TravisResult.ok 5 7 := by
  refine ⟨?_, ?_, ?_, ?_, ?_⟩
  · exact (travis_get_poll ⟨200, 7⟩ [] 0 7).1 rfl
  · exact (travis_get_poll ⟨404, 0⟩ [⟨200, 7⟩] 0 7).2.1 rfl
  · exact ((travis_get_poll ⟨429, 0⟩ [⟨200, 7⟩] 0 7).2.2.1 rfl).1 0 7 rfl
  · exact (travis_get_poll ⟨500, 0⟩ [⟨200, 7⟩] 0 7).2.2.2.1
      (by decide) (by decide) (by decide)
  · exact ((travis_get_poll (⟨429, 0⟩ : TravisResp Nat) [] 0 7).2.2.1 rfl).2 5

namespace ParallelArtifactRunner

/-- Result of one `process_artifact` call: the handler either raises, or
returns a value whose Python truthiness (`if data:`) decides whether the
item counts as succeeded or errored. -/
inductive HandlerOutcome where
  | raises
  | returns (truthy : Bool)
deriving DecidableEq

/-- The `ValueError` raised by `ParallelArtifactRunner.__init__` on an empty
`image_tags` list or a non-positive `max_workers`. -/
inductive RunnerErr where
  | valueError
deriving DecidableEq

/-- The internal observations of one `run()`: the pool size, the tag of each
submitted future (one per work item, in submission order), and the
`attempted` / `succeeded` / `errored` counters of the completion loop. -/
structure RunTrace where
  numWorkers : Int
  calls : List String
  attempted : Nat
  succeeded : Nat
  errored : Nat
deriving DecidableEq

/-- One step of the `for future in as_completed(...)` loop: increment
`attempted`, then either catch the exception and count an error, or test the
result's truthiness and count a success or an error. -/
def tallyStep (acc : Nat × Nat × Nat) (outcome : HandlerOutcome) : Nat × Nat × Nat :=
  match outcome with
  | HandlerOutcome.raises => (acc.1 + 1, acc.2.1, acc.2.2 + 1)
  | HandlerOutcome.returns true => (acc.1 + 1, acc.2.1 + 1, acc.2.2)
  | HandlerOutcome.returns false => (acc.1 + 1, acc.2.1, acc.2.2 + 1)

/-- The counting loop over the completed futures, starting from zero counts.
All three counters are invariant under the completion order, so the model
consumes the futures in submission order. -/
def tally (outcomes : List HandlerOutcome) : Nat × Nat × Nat :=
  outcomes.foldl tallyStep (0, 0, 0)

/-- A `ParallelArtifactRunner` constructed with `image_tags` and
`max_workers` and then `run()`, observed internally: the constructor checks
(`image_tags` non-empty, `max_workers > 0`), the pool sized
`min(max_workers, len(image_tags))`, the dict comprehension submitting
`_thread_main` (hence `process_artifact`) once per tag, and the counting
loop over the completed futures. -/
def runInternal (imageTags : List String) (maxWorkers : Int)
    (handler : String → HandlerOutcome) : Except RunnerErr RunTrace :=
  if imageTags = [] then Except.error RunnerErr.valueError
  else if maxWorkers ≤ 0 then Except.error RunnerErr.valueError
  else
    let futureToImageTag := imageTags.map (fun t => (handler t, t))
    let t := tally (futureToImageTag.map Prod.fst)
    Except.ok ⟨min maxWorkers (imageTags.length : Int),
      futureToImageTag.map Prod.snd, t.1, t.2.1, t.2.2⟩

/-- `run()` as the caller sees it: `attempted`, `succeeded` and `errored`
are local variables of `run` and its return value is `None`, so the only
caller-visible outcome is unit (or the raised constructor error). -/
def run (imageTags : List String) (maxWorkers : Int)
    (handler : String → HandlerOutcome) : Except RunnerErr Unit :=
  (runInternal imageTags maxWorkers handler).map (fun _ => ())

/-- The counting loop counts one attempt per future, and every future lands
in exactly one of the succeeded/errored buckets, from any starting
counts. -/
theorem tally_foldl :
    ∀ (outcomes : List HandlerOutcome) (a s e : Nat),
      (outcomes.foldl tallyStep (a, s, e)).1 = a + outcomes.length ∧
      (outcomes.foldl tallyStep (a, s, e)).2.1 +
        (outcomes.foldl tallyStep (a, s, e)).2.2 = s + e + outcomes.length
  | [], a, s, e => by simp
  | o :: os, a, s, e => by
    simp only [List.foldl_cons, List.length_cons]
    cases o with
    | raises =>
      have ih := tally_foldl os (a + 1) s (e + 1)
      simp only [tallyStep] at ih ⊢
      omega
    | returns b =>
      cases b with
      | true =>
        have ih := tally_foldl os (a + 1) (s + 1) e
        simp only [tallyStep] at ih ⊢
        omega
      | false =>
        have ih := tally_foldl os (a + 1) s (e + 1)
        simp only [tallyStep] at ih ⊢
        omega

end ParallelArtifactRunner

open ParallelArtifactRunner in
/-- C2: for every non-empty work list and every worker bound `k` with
`0 < k ≤ |W|`, one `run()` submits `process_artifact` exactly once per item
of the list (in submission order), sizes the pool at `k`, and the number of
items attempted during the run equals `|W|`. -/
theorem runner_processes_each_item_once (imageTags : List String) (k : Int)
    (handler : String → HandlerOutcome) (hne : imageTags ≠ []) (hk : 0 < k)
    (hkle : k ≤ (imageTags.length : Int)) :
    ∃ tr, runInternal imageTags k handler = Except.ok tr ∧
      tr.calls = imageTags ∧
      tr.attempted = imageTags.length ∧
      tr.numWorkers = k := by
  have hk0 : ¬ k ≤ 0 := by omega
  rw [runInternal, if_neg hne, if_neg hk0]
  refine ⟨_, rfl, ?_, ?_, ?_⟩
  · simp [Function.comp_def]
  · have := tally_foldl ((imageTags.map (fun t => (handler t, t))).map Prod.fst) 0 0 0
    simpa [tally] using this.1
  · simpa using min_eq_left hkle

namespace ParallelArtifactRunner

/-- A handler for the runner witnesses whose truthiness varies by tag. -/
def exHandler : String → HandlerOutcome := fun t =>
  if t = "bad" then HandlerOutcome.raises
  else if t = "falsy" then HandlerOutcome.returns false
  else HandlerOutcome.returns true

end ParallelArtifactRunner

open ParallelArtifactRunner in
/-- Witness for C2 on a concrete three-item work list with two workers. -/
theorem runner_processes_each_item_once_witness :
    ∃ tr, runInternal ["ok", "bad", "falsy"] 2 exHandler = Except.ok tr ∧
      tr.calls = ["ok", "bad", "falsy"] ∧
      tr.attempted = (["ok", "bad", "falsy"] : List String).length ∧
      tr.numWorkers = 2 :=
  runner_processes_each_item_once ["ok", "bad", "falsy"] 2 exHandler
    (by decide) (by decide) (by decide)

namespace ParallelArtifactRunner

/-- A handler whose every item succeeds. -/
def handlerAllTrue : String → HandlerOutcome := fun _ =>
  HandlerOutcome.returns true

/-- A handler whose every item raises. -/
def handlerAllRaise : String → HandlerOutcome := fun _ =>
  HandlerOutcome.raises

end ParallelArtifactRunner

open ParallelArtifactRunner in
/-- C5 counterexample: two runs over the same one-item work list, one whose
handler succeeds and one whose handler raises, produce identical
caller-visible results (`run()` stores the counters in local variables and
returns `None`), even though their internal succeeded counts differ — so the
final counts are not available to the caller after `run()` returns. -/
theorem run_counts_not_available :
    run ["a"] 1 handlerAllTrue = run ["a"] 1 handlerAllRaise ∧
    (runInternal ["a"] 1 handlerAllTrue).map RunTrace.succeeded ≠
      (runInternal ["a"] 1 handlerAllRaise).map RunTrace.succeeded := by
  refine ⟨rfl, ?_⟩
  intro h
  rw [show (runInternal ["a"] 1 handlerAllTrue).map RunTrace.succeeded =
      Except.ok 1 from rfl,
    show (runInternal ["a"] 1 handlerAllRaise).map RunTrace.succeeded =
      Except.ok 0 from rfl] at h
  simp at h

open ParallelArtifactRunner in
/-- C5 (amended): during `run()` the completion loop does compute the final
counts — `attempted` equals the work-list length and every item lands in
exactly one of `succeeded`/`errored` — but they are local variables that are
discarded: `run()` returns `None`, so the counts are not exposed to the
caller. -/
theorem run_computes_but_discards_counts (imageTags : List String) (k : Int)
    (handler : String → HandlerOutcome) (hne : imageTags ≠ []) (hk : 0 < k) :
    run imageTags k handler = Except.ok () ∧
    ∃ tr, runInternal imageTags k handler = Except.ok tr ∧
      tr.attempted = imageTags.length ∧
      tr.succeeded + tr.errored = tr.attempted := by
  have hk0 : ¬ k ≤ 0 := by omega
  have h := tally_foldl ((imageTags.map (fun t => (handler t, t))).map Prod.fst) 0 0 0
  refine ⟨?_, ?_⟩
  · rw [run, runInternal, if_neg hne, if_neg hk0]
    rfl
  · rw [runInternal, if_neg hne, if_neg hk0]
    refine ⟨_, rfl, ?_, ?_⟩
    · simpa [tally] using h.1
    · have h2 := h.2
      have h1 := h.1
      simp only [tally]
      simp only [List.length_map] at h1 h2
      omega

open ParallelArtifactRunner in
/-- Witness for C5 (amended) on a concrete three-item work list. -/
theorem run_computes_but_discards_counts_witness :
    run ["ok", "bad", "falsy"] 1 exHandler = Except.ok () ∧
    ∃ tr, runInternal ["ok", "bad", "falsy"] 1 exHandler = Except.ok tr ∧
      tr.attempted = (["ok", "bad", "falsy"] : List String).length ∧
      tr.succeeded + tr.errored = tr.attempted :=
  run_computes_but_discards_counts ["ok", "bad", "falsy"] 1 exHandler
    (by decide) (by decide)
